import Mathlib

/-!
Verification development for the WavePy3 repository.

The file shallowly embeds the two source files, WavePy.py (the monolithic
simulator class) and wavepy3/atmos/atmos.py (the modular atmosphere
aggregator), over the real and complex numbers: numpy float arithmetic is
modelled by exact real arithmetic, numpy arrays by lists or functions out
of Fin n, and every random draw becomes an explicit function argument.
Each definition cites the source lines it translates.
-/

namespace WavePy3

noncomputable section

/-! ## Propagation geometry planner (WavePy.py, WavePy.__init__, lines 84-105)

dzProps = np.ones(NumScr+2) * (PropDist/NumScr), then dzProps[0:2] and
dzProps[NumScr:NumScr+2] are overwritten with half that value, so after the
three statements entry i holds the half value when i < 2 or NumScr <= i,
and the full value when 2 <= i < NumScr. -/

/-- Value of dzProps[i] after the assignments of lines 84-87. -/
def dzFun (NumScr : ℕ) (L : ℝ) (i : ℕ) : ℝ :=
  if 2 ≤ i ∧ i < NumScr then L / NumScr else L / (2 * NumScr)

/-- The dzProps array (length NumScr + 2). -/
def dzList (NumScr : ℕ) (L : ℝ) : List ℝ :=
  (List.range (NumScr + 2)).map (dzFun NumScr L)

/-- PropLocs[i] (lines 89-92): prefix sums of dzProps, PropLocs[0] = 0. -/
def propLocsFun (NumScr : ℕ) (L : ℝ) (i : ℕ) : ℝ :=
  ((dzList NumScr L).take i).sum

/-- The PropLocs array (length NumScr + 3). -/
def propLocsList (NumScr : ℕ) (L : ℝ) : List ℝ :=
  (List.range (NumScr + 3)).map (propLocsFun NumScr L)

/-- PropSampling[i] (lines 98-100):
(Rdx - dx) * (PropLocs[i]/PropDist) + dx. -/
def psFun (NumScr : ℕ) (L dx Rdx : ℝ) (i : ℕ) : ℝ :=
  (Rdx - dx) * (propLocsFun NumScr L i / L) + dx

/-- The PropSampling array (length NumScr + 3). -/
def psList (NumScr : ℕ) (L dx Rdx : ℝ) : List ℝ :=
  (List.range (NumScr + 3)).map (psFun NumScr L dx Rdx)

/-- SamplingRatioBetweenScreen[i] (lines 102-105):
PropSampling[i+1] / PropSampling[i]. -/
def srFun (NumScr : ℕ) (L dx Rdx : ℝ) (i : ℕ) : ℝ :=
  psFun NumScr L dx Rdx (i + 1) / psFun NumScr L dx Rdx i

/-- The SamplingRatioBetweenScreen array (length NumScr + 2). -/
def srList (NumScr : ℕ) (L dx Rdx : ℝ) : List ℝ :=
  (List.range (NumScr + 2)).map (srFun NumScr L dx Rdx)

/-! ### Helper lemmas about the geometry lists -/

theorem getD_range_map {f : ℕ → ℝ} {n i : ℕ} (h : i < n) :
    (((List.range n).map f).getD i 0) = f i := by
  rw [List.getD_eq_getElem?_getD, List.getElem?_map, List.getElem?_range h]
  rfl

theorem sum_range_map (f : ℕ → ℝ) (n : ℕ) :
    (((List.range n).map f).sum) = ∑ i ∈ Finset.range n, f i := by
  induction n with
  | zero => simp
  | succ m ih =>
      rw [List.range_succ, List.map_append, List.sum_append, Finset.sum_range_succ, ih]
      simp

/-- The total of the segment lengths, for two or more screens. -/
theorem dzList_sum {NumScr : ℕ} (L : ℝ) (h2 : 2 ≤ NumScr) :
    (dzList NumScr L).sum = L := by
  rw [dzList, sum_range_map]
  have hfilter : (Finset.range (NumScr + 2)).filter (fun i => 2 ≤ i ∧ i < NumScr)
      = Finset.Ico 2 NumScr := by
    ext i
    simp only [Finset.mem_filter, Finset.mem_range, Finset.mem_Ico]
    omega
  have hfilter2 : (Finset.range (NumScr + 2)).filter (fun i => ¬ (2 ≤ i ∧ i < NumScr))
      = {0, 1, NumScr, NumScr + 1} := by
    ext i
    simp only [Finset.mem_filter, Finset.mem_range, Finset.mem_insert, Finset.mem_singleton]
    omega
  have hcard2 : ({0, 1, NumScr, NumScr + 1} : Finset ℕ).card = 4 := by
    rw [Finset.card_insert_of_not_mem
        (by simp only [Finset.mem_insert, Finset.mem_singleton]; omega),
      Finset.card_insert_of_not_mem
        (by simp only [Finset.mem_insert, Finset.mem_singleton]; omega),
      Finset.card_insert_of_not_mem (by simp only [Finset.mem_singleton]; omega),
      Finset.card_singleton]
  have hN : (NumScr : ℝ) ≠ 0 := by
    have : 0 < NumScr := by omega
    exact_mod_cast this.ne'
  calc ∑ i ∈ Finset.range (NumScr + 2), dzFun NumScr L i
      = ∑ i ∈ (Finset.range (NumScr + 2)).filter (fun i => 2 ≤ i ∧ i < NumScr),
          L / NumScr
        + ∑ i ∈ (Finset.range (NumScr + 2)).filter (fun i => ¬ (2 ≤ i ∧ i < NumScr)),
          L / (2 * NumScr) := by
        rw [← Finset.sum_filter_add_sum_filter_not (Finset.range (NumScr + 2))
          (fun i => 2 ≤ i ∧ i < NumScr)]
        congr 1
        · exact Finset.sum_congr rfl (fun i hi => by
            simp only [Finset.mem_filter] at hi
            simp [dzFun, hi.2])
        · exact Finset.sum_congr rfl (fun i hi => by
            simp only [Finset.mem_filter] at hi
            simp [dzFun, hi.2])
    _ = (NumScr - 2 : ℕ) * (L / NumScr) + 4 * (L / (2 * NumScr)) := by
        rw [hfilter, hfilter2, Finset.sum_const, Finset.sum_const, Nat.card_Ico, hcard2,
          nsmul_eq_mul, nsmul_eq_mul]
        norm_num
    _ = L := by
        have hc : ((NumScr - 2 : ℕ) : ℝ) = (NumScr : ℝ) - 2 := by
          push_cast [Nat.cast_sub h2]
          ring
        rw [hc]
        field_simp
        ring

/-- Entries of dzProps are nonnegative for positive path length. -/
theorem dzFun_nonneg {NumScr : ℕ} {L : ℝ} (hL : 0 < L) (i : ℕ) :
    0 ≤ dzFun NumScr L i := by
  unfold dzFun
  split <;> positivity

/-- PropLocs[i] lies between 0 and the total path length (NumScr at least 2). -/
theorem propLocsFun_bounds {NumScr : ℕ} {L : ℝ} (h2 : 2 ≤ NumScr) (hL : 0 < L) (i : ℕ) :
    0 ≤ propLocsFun NumScr L i ∧ propLocsFun NumScr L i ≤ L := by
  have hmem : ∀ x ∈ dzList NumScr L, 0 ≤ x := by
    intro x hx
    rw [dzList, List.mem_map] at hx
    obtain ⟨j, _, rfl⟩ := hx
    exact dzFun_nonneg hL j
  constructor
  · exact List.sum_nonneg (fun x hx => hmem x (List.mem_of_mem_take hx))
  · have hsplit : (dzList NumScr L).sum
        = ((dzList NumScr L).take i).sum + ((dzList NumScr L).drop i).sum := by
      rw [← List.sum_append, List.take_append_drop]
    have hdrop : 0 ≤ ((dzList NumScr L).drop i).sum :=
      List.sum_nonneg (fun x hx => hmem x (List.mem_of_mem_drop hx))
    have := dzList_sum L h2
    unfold propLocsFun
    linarith [hsplit, hdrop, this]

/-- Each per-plane sampling pitch is positive (NumScr at least 2, positive
pitches and path length). -/
theorem psFun_pos {NumScr : ℕ} {L dx Rdx : ℝ} (h2 : 2 ≤ NumScr) (hL : 0 < L)
    (hdx : 0 < dx) (hRdx : 0 < Rdx) (i : ℕ) :
    0 < psFun NumScr L dx Rdx i := by
  obtain ⟨hlo, hhi⟩ := propLocsFun_bounds h2 hL i
  set t : ℝ := propLocsFun NumScr L i / L with ht
  have ht0 : 0 ≤ t := div_nonneg hlo hL.le
  have ht1 : t ≤ 1 := by
    rw [ht, div_le_one hL]
    exact hhi
  unfold psFun
  rw [← ht]
  rcases eq_or_lt_of_le ht0 with h | h
  · rw [← h]
    simpa using hdx
  · nlinarith [mul_pos hRdx h, mul_nonneg hdx.le (sub_nonneg.2 ht1)]

/-- C4 counterexample: for NumScr = 1 (an allowed value in the claim) the
three segment lengths are each L/2 and sum to 3L/2, not L; and already for
NumScr = 10 the second segment is a half-length segment L/20, not a full
interior segment L/10. -/
theorem dzProps_numscr_one_sum_ne :
    (dzList 1 (1 : ℝ)).sum ≠ 1 ∧ (dzList 10 (1 : ℝ)).getD 1 0 ≠ 1 / 10 := by
  constructor
  · have h3 : List.range 3 = [0, 1, 2] := by decide
    rw [dzList]
    norm_num [h3, dzFun]
  · rw [dzList, getD_range_map (by norm_num)]
    norm_num [dzFun]

/-- C4 amended: for every NumScr at least 2 and every path length L > 0, the
NumScr + 2 segment lengths sum to L; the two segments adjoining the source
and the two adjoining the receiver have half length L/(2 NumScr), and the
remaining NumScr - 2 interior segments have full length L/NumScr. -/
theorem dzProps_sum_and_shape (NumScr : ℕ) (L : ℝ) (h2 : 2 ≤ NumScr) (hL : 0 < L) :
    (dzList NumScr L).length = NumScr + 2 ∧
    (dzList NumScr L).sum = L ∧
    (∀ i : ℕ, (i < 2 ∨ (NumScr ≤ i ∧ i < NumScr + 2)) →
      (dzList NumScr L).getD i 0 = L / (2 * NumScr)) ∧
    (∀ i : ℕ, 2 ≤ i → i < NumScr →
      (dzList NumScr L).getD i 0 = L / NumScr) := by
  refine ⟨by simp [dzList], dzList_sum L h2, ?_, ?_⟩
  · intro i hi
    rw [dzList, getD_range_map (by omega)]
    unfold dzFun
    rw [if_neg (by omega)]
  · intro i hlo hhi
    rw [dzList, getD_range_map (by omega)]
    unfold dzFun
    rw [if_pos ⟨hlo, hhi⟩]

/-- C4 witness: the amended statement evaluated at NumScr = 10, L = 1. -/
theorem dzProps_sum_and_shape_witness :
    (2 ≤ 10 ∧ (0 : ℝ) < 1) ∧
    ((dzList 10 (1 : ℝ)).length = 10 + 2 ∧
     (dzList 10 (1 : ℝ)).sum = 1 ∧
     (∀ i : ℕ, (i < 2 ∨ (10 ≤ i ∧ i < 10 + 2)) →
       (dzList 10 (1 : ℝ)).getD i 0 = 1 / (2 * (10 : ℕ))) ∧
     (∀ i : ℕ, 2 ≤ i → i < 10 →
       (dzList 10 (1 : ℝ)).getD i 0 = 1 / (10 : ℕ))) :=
  ⟨⟨by norm_num, by norm_num⟩, dzProps_sum_and_shape 10 1 (by norm_num) (by norm_num)⟩

/-- C5 counterexample: with NumScr = 1, L = 1, dx = 1, Rdx = 1/10 (all
strictly positive), the sampling-ratio array has its last entry equal to
(-7/20)/(1/10) = -7/2 < 0, so not all entries are strictly positive. -/
theorem srList_numscr_one_entry_neg :
    ¬ ((srList 1 (1 : ℝ) 1 (1 / 10)).length = 1 + 2 ∧
       ∀ i : ℕ, i < 1 + 2 → 0 < (srList 1 (1 : ℝ) 1 (1 / 10)).getD i 0) := by
  rintro ⟨-, hpos⟩
  have h := hpos 2 (by norm_num)
  rw [srList, getD_range_map (by norm_num)] at h
  have h3 : List.range 3 = [0, 1, 2] := by decide
  rw [srFun] at h
  have e3 : psFun 1 (1 : ℝ) 1 (1 / 10) 3 = -(7 / 20) := by
    rw [psFun, propLocsFun, dzList]
    norm_num [h3, dzFun]
  have e2 : psFun 1 (1 : ℝ) 1 (1 / 10) 2 = 1 / 10 := by
    rw [psFun, propLocsFun, dzList]
    norm_num [h3, dzFun]
  rw [e3, e2] at h
  norm_num at h

/-- C5 amended: for every NumScr at least 2 and strictly positive path
length and source/receiver pitches, the sampling-ratio array has exactly
NumScr + 2 entries and every entry is strictly positive (finiteness is
automatic in the real-number model since every denominator is nonzero). -/
theorem srList_length_and_pos (NumScr : ℕ) (L dx Rdx : ℝ)
    (h2 : 2 ≤ NumScr) (hL : 0 < L) (hdx : 0 < dx) (hRdx : 0 < Rdx) :
    (srList NumScr L dx Rdx).length = NumScr + 2 ∧
    ∀ i : ℕ, i < NumScr + 2 → 0 < (srList NumScr L dx Rdx).getD i 0 := by
  refine ⟨by simp [srList], ?_⟩
  intro i hi
  rw [srList, getD_range_map hi, srFun]
  exact div_pos (psFun_pos h2 hL hdx hRdx (i + 1)) (psFun_pos h2 hL hdx hRdx i)

/-- C5 witness: the amended statement evaluated at NumScr = 10, L = 1,
dx = 1, Rdx = 2. -/
theorem srList_length_and_pos_witness :
    (2 ≤ 10 ∧ (0 : ℝ) < 1 ∧ (0 : ℝ) < 1 ∧ (0 : ℝ) < 2) ∧
    ((srList 10 (1 : ℝ) 1 2).length = 10 + 2 ∧
     ∀ i : ℕ, i < 10 + 2 → 0 < (srList 10 (1 : ℝ) 1 2).getD i 0) :=
  ⟨⟨by norm_num, by norm_num, by norm_num, by norm_num⟩,
    srList_length_and_pos 10 1 1 2 (by norm_num) (by norm_num) (by norm_num) (by norm_num)⟩

/-! ## Split-step propagator (WavePy.py, lines 155-161 and 360-463)

The complex field is a function out of Fin N times Fin N. The numpy FFT
pair np.fft.fft2 / np.fft.ifft2 is embedded as the two-dimensional
discrete Fourier transform written as an explicit double sum, and
np.fft.fftshift / np.fft.ifftshift as the half-grid index rolls. The
simulation object carries exactly the attributes the propagators read. -/

/-- An N by N complex array. -/
def Mat (n : ℕ) : Type := Fin n → Fin n → ℂ

/-- Index roll of np.fft.fftshift along one axis. -/
def shiftIdx (n : ℕ) (i : Fin n) : Fin n :=
  ⟨(i + (n - n / 2)) % n, Nat.mod_lt _ i.pos⟩

/-- Index roll of np.fft.ifftshift along one axis. -/
def ishiftIdx (n : ℕ) (i : Fin n) : Fin n :=
  ⟨(i + n / 2) % n, Nat.mod_lt _ i.pos⟩

/-- np.fft.fftshift on an N by N array. -/
def fftshiftM {n : ℕ} (U : Mat n) : Mat n :=
  fun i j => U (shiftIdx n i) (shiftIdx n j)

/-- np.fft.ifftshift on an N by N array. -/
def ifftshiftM {n : ℕ} (U : Mat n) : Mat n :=
  fun i j => U (ishiftIdx n i) (ishiftIdx n j)

/-- np.fft.fft2: the two-dimensional discrete Fourier transform. -/
def fft2 {n : ℕ} (U : Mat n) : Mat n := fun k l =>
  ∑ m : Fin n, ∑ o : Fin n,
    U m o * Complex.exp (-(2 * Real.pi * Complex.I) *
      ((((k : ℕ) * (m : ℕ) : ℕ) : ℂ) / (n : ℂ) + (((l : ℕ) * (o : ℕ) : ℕ) : ℂ) / (n : ℂ)))

/-- np.fft.ifft2: the inverse two-dimensional discrete Fourier transform. -/
def ifft2 {n : ℕ} (U : Mat n) : Mat n := fun m o =>
  (1 / ((n : ℂ) * (n : ℂ))) * ∑ k : Fin n, ∑ l : Fin n,
    U k l * Complex.exp ((2 * Real.pi * Complex.I) *
      ((((k : ℕ) * (m : ℕ) : ℕ) : ℂ) / (n : ℂ) + (((l : ℕ) * (o : ℕ) : ℕ) : ℂ) / (n : ℂ)))

/-- The attributes of the WavePy object that VacuumProp, SplitStepProp and
TurbSim read: grid size N, source and receiver pitch, wavelength, path
length, screen count, the subharmonic flag loon and the source field
(whichever of the four source constructors produced it). -/
structure WavePySim where
  N : ℕ
  dx : ℝ
  Rdx : ℝ
  wvl : ℝ
  PropDist : ℝ
  NumScr : ℕ
  loon : ℝ
  Source : Mat N

/-- The optical wavenumber k = 2 pi / wvl (line 37). -/
def kOpt (s : WavePySim) : ℝ := 2 * Real.pi / s.wvl

/-- Source-plane x coordinate grid (lines 57-59): x1[i][j] = (j - N/2) dx. -/
def x1 (s : WavePySim) (i j : Fin s.N) : ℝ := ((j : ℝ) - (s.N : ℝ) / 2) * s.dx

/-- Source-plane y coordinate grid: y1[i][j] = (i - N/2) dx. -/
def y1 (s : WavePySim) (i j : Fin s.N) : ℝ := ((i : ℝ) - (s.N : ℝ) / 2) * s.dx

/-- Source-plane radial grid r1 (line 60). -/
def r1 (s : WavePySim) (i j : Fin s.N) : ℝ :=
  Real.sqrt (x1 s i j ^ 2 + y1 s i j ^ 2)

/-- Receiver-plane radial grid rR (lines 78-81), built with pitch Rdx. -/
def rR (s : WavePySim) (i j : Fin s.N) : ℝ :=
  Real.sqrt ((((j : ℝ) - (s.N : ℝ) / 2) * s.Rdx) ^ 2 +
    (((i : ℝ) - (s.N : ℝ) / 2) * s.Rdx) ^ 2)

/-- MakeSGB (lines 155-161): the super-Gaussian boundary
exp(-((r1 N / (0.55 N))^16)). -/
def makeSGB (s : WavePySim) (i j : Fin s.N) : ℝ :=
  Real.exp (-((r1 s i j * (s.N : ℝ) / (0.55 * (s.N : ℝ))) ^ 16))

/-- dzProps[p] as the propagators index it. -/
def dzAt (s : WavePySim) (p : ℕ) : ℝ := dzFun s.NumScr s.PropDist p

/-- PropSampling[p] as the propagators index it. -/
def psAt (s : WavePySim) (p : ℕ) : ℝ := psFun s.NumScr s.PropDist s.dx s.Rdx p

/-- SamplingRatioBetweenScreen[p] as the propagators index it. -/
def srAt (s : WavePySim) (p : ℕ) : ℝ := srFun s.NumScr s.PropDist s.dx s.Rdx p

/-- The initial quadratic phase-compensation factor P0 (lines 371-372 and
413-414): exp(i (k/(2 dzProps[0])) r1^2 (1 - SamplingRatio[0])). -/
def P0 (s : WavePySim) : Mat s.N := fun i j =>
  Complex.exp (Complex.I *
    (((kOpt s / (2 * dzAt s 0)) * r1 s i j ^ 2 * (1 - srAt s 0) : ℝ) : ℂ))

/-- The closing quadratic phase factor PF (lines 395-396 and 439-440):
exp(i (k/(2 dzProps[-1])) rR^2 SamplingRatio[-1]); index -1 is NumScr + 1. -/
def PF (s : WavePySim) : Mat s.N := fun i j =>
  Complex.exp (Complex.I *
    (((kOpt s / (2 * dzAt s (s.NumScr + 1))) * rR s i j ^ 2
      * srAt s (s.NumScr + 1) : ℝ) : ℂ))

/-- The scaled diffraction kernel QuadPhaseFac of loop pass pcount
(lines 381-388 and 424-431): exp(-i pi wvl dzProps[pcount]
SamplingRatio[pcount] (fX^2 + fY^2)) with fX = nx/(N PropSampling[pcount]),
nx[i][j] = j - N/2 and fY likewise from the row index. -/
def quadPhaseFac (s : WavePySim) (p : ℕ) : Mat s.N := fun i j =>
  Complex.exp (-Complex.I *
    ((Real.pi * s.wvl * dzAt s p * srAt s p *
      ((((j : ℝ) - (s.N : ℝ) / 2) * (1 / ((s.N : ℝ) * psAt s p))) ^ 2 +
       (((i : ℝ) - (s.N : ℝ) / 2) * (1 / ((s.N : ℝ) * psAt s p))) ^ 2) : ℝ) : ℂ))

/-- One diffraction step of loop pass pcount (lines 378-391 and 421-434):
forward transform with centering, multiply by the scaled kernel, inverse
transform with centering. -/
def diffStep (s : WavePySim) (p : ℕ) (U : Mat s.N) : Mat s.N :=
  ifftshiftM (ifft2 (ifftshiftM (fun a b =>
    fftshiftM (fft2 (fftshiftM U)) a b * quadPhaseFac s p a b)))

/-- The VacuumProp loop (lines 376-393): passes pcount = 1 .. m, each a
diffraction step followed by the super-Gaussian boundary. -/
def vacLoop (s : WavePySim) (sg : Fin s.N → Fin s.N → ℝ) : ℕ → Mat s.N → Mat s.N
  | 0, U => U
  | p + 1, U => fun i j =>
      diffStep s (p + 1) (vacLoop s sg p U) i j * ((sg i j : ℝ) : ℂ)

/-- The SplitStepProp loop (lines 418-436): as vacLoop, but each pass also
multiplies by exp(i PhaseScreenStack[:, :, pcount - 1]). -/
def ssLoop (s : WavePySim) (sg : Fin s.N → Fin s.N → ℝ)
    (stack : ℕ → Mat s.N) : ℕ → Mat s.N → Mat s.N
  | 0, U => U
  | p + 1, U => fun i j =>
      diffStep s (p + 1) (ssLoop s sg stack p U) i j * ((sg i j : ℝ) : ℂ) *
        Complex.exp (Complex.I * stack p i j)

/-- VacuumProp (lines 360-400): initial field P0 * Source, then the loop
over passes 1 .. NumScr (range(1, len(PropLocs) - 2) with len(PropLocs) =
NumScr + 3), then the closing factor PF. -/
def vacuumProp (s : WavePySim) : Mat s.N := fun i j =>
  PF s i j *
    vacLoop s (makeSGB s) s.NumScr (fun a b => P0 s a b * s.Source a b) i j

/-- SplitStepProp (lines 402-443). Line 416 overwrites the parameter Uin
with P0 * self.Source * exp(i PhaseScreenStack[:, :, 0]), so the binder Uin
is never read; each loop pass multiplies by
exp(i PhaseScreenStack[:, :, pcount - 1]). -/
def splitStepProp (s : WavePySim) (Uin : Mat s.N) (stack : ℕ → Mat s.N) : Mat s.N :=
  fun i j =>
    PF s i j *
      ssLoop s (makeSGB s) stack s.NumScr
        (fun a b => P0 s a b * s.Source a b *
          Complex.exp (Complex.I * stack 0 a b)) i j

/-- TurbSim (lines 445-463): builds phz = loon * phz_lo + phz_hi from the
per-screen draws and calls SplitStepProp(self.Source, np.exp(1j * phz)),
so the stack handed to SplitStepProp already holds the transmittances. -/
def turbSim (s : WavePySim) (phz_hi phz_lo : ℕ → Fin s.N → Fin s.N → ℝ) : Mat s.N :=
  splitStepProp s s.Source
    (fun p i j => Complex.exp (Complex.I *
      ((s.loon * phz_lo p i j + phz_hi p i j : ℝ) : ℂ)))

/-- C2: SplitStepProp ignores its caller-supplied input field entirely
(line 416 overwrites Uin with self.Source before the first diffraction
step), so two calls differing only in Uin return identical outputs. -/
theorem splitStepProp_ignores_input_field (s : WavePySim)
    (Uin Uin2 : Mat s.N) (stack : ℕ → Mat s.N) :
    splitStepProp s Uin stack = splitStepProp s Uin2 stack := rfl

/-- C9: VacuumProp returns exactly the field SplitStepProp returns when
every screen phase is zero (every transmittance unity), for every
configuration and every (ignored) input field. -/
theorem vacuumProp_eq_splitStepProp_zero_stack (s : WavePySim) (Uin : Mat s.N) :
    splitStepProp s Uin (fun _ => fun _ _ => 0) = vacuumProp s := by
  have hloop : ∀ (m : ℕ) (U : Mat s.N),
      ssLoop s (makeSGB s) (fun _ => fun _ _ => 0) m U = vacLoop s (makeSGB s) m U := by
    intro m
    induction m with
    | zero => intro U; rfl
    | succ p ih =>
        intro U
        funext i j
        show diffStep s (p + 1) (ssLoop s (makeSGB s) (fun _ => fun _ _ => 0) p U) i j
            * ((makeSGB s i j : ℝ) : ℂ) * Complex.exp (Complex.I * 0) = _
        rw [ih, mul_zero, Complex.exp_zero, mul_one]
        rfl
  funext i j
  show PF s i j * ssLoop s (makeSGB s) (fun _ => fun _ _ => 0) s.NumScr
      (fun a b => P0 s a b * s.Source a b * Complex.exp (Complex.I * 0)) i j = _
  rw [hloop]
  have hbase : (fun a b => P0 s a b * s.Source a b * Complex.exp (Complex.I * 0))
      = fun a b => P0 s a b * s.Source a b := by
    funext a b
    rw [mul_zero, Complex.exp_zero, mul_one]
  rw [hbase]
  rfl

/-- C1: TurbSim hands SplitStepProp the transmittances exp(i phase_k) as
the stack, and SplitStepProp itself multiplies by the complex exponential
of each stack entry, so end to end the field is multiplied by
exp(i exp(i phase_k)) rather than by exp(i phase_k) (and the first stack
entry enters both at the source plane and after the first diffraction
step); at phase pi the factor actually applied differs from the
transmittance the claim names. -/
theorem turbSim_double_exponential :
    (∀ (s : WavePySim) (phz_hi phz_lo : ℕ → Fin s.N → Fin s.N → ℝ),
      turbSim s phz_hi phz_lo = splitStepProp s s.Source
        (fun p i j => Complex.exp (Complex.I *
          ((s.loon * phz_lo p i j + phz_hi p i j : ℝ) : ℂ)))) ∧
    (∀ (s : WavePySim) (Uin : Mat s.N) (stack : ℕ → Mat s.N) (i j : Fin s.N),
      splitStepProp s Uin stack i j = PF s i j *
        ssLoop s (makeSGB s) stack s.NumScr
          (fun a b => P0 s a b * s.Source a b *
            Complex.exp (Complex.I * stack 0 a b)) i j) ∧
    Complex.exp (Complex.I * Complex.exp (Complex.I * ((Real.pi : ℝ) : ℂ))) ≠
      Complex.exp (Complex.I * ((Real.pi : ℝ) : ℂ)) := by
  refine ⟨fun s hi lo => rfl, fun s Uin stack i j => rfl, ?_⟩
  intro heq
  have h1 : Complex.exp (Complex.I * ((Real.pi : ℝ) : ℂ)) = -1 := by
    rw [mul_comm]
    exact Complex.exp_pi_mul_I
  rw [h1] at heq
  have h2 : Complex.I * (-1 : ℂ) = ((-1 : ℝ) : ℂ) * Complex.I := by
    push_cast
    ring
  rw [h2] at heq
  have h3 := congrArg Complex.im heq
  rw [Complex.exp_ofReal_mul_I_im] at h3
  simp only [Complex.neg_im, Complex.one_im, neg_zero] at h3
  rw [Real.sin_neg] at h3
  have hs : (0 : ℝ) < Real.sin 1 :=
    Real.sin_pos_of_pos_of_lt_pi one_pos (by linarith [Real.pi_gt_three])
  linarith

/-! ## Phase screen PSD sampling (WavePy.py, PhaseScreen, lines 205-293)

The anisotropy factor c is the literal 1.0 of lines 209 and 310; floats
raised to float exponents are embedded with the real power
Real.rpow, and squares (integer literal exponents in the source) with the
natural power. The normalized alpha value na = alpha/6 enters every
spectral constant; the source evaluates the same four constant formulas
once at na and once at the Kolmogorov value nae = 22/6, so they are shared
here as functions of na. -/

/-- Striblings consistency parameter c1 (lines 224-225 and 240-241). -/
def coneOf (na : ℝ) : ℝ :=
  2 * (8 / (na - 2) * Real.Gamma (2 / (na - 2))) ^ ((na - 2) / 2)

/-- The generalized phase consistency parameter Bfac = (2 pi)^(2-na) *
Bnum/Bdenom with Bnum = Gamma(na/2) and Bdenom = 2^(2-na) pi na
Gamma(-na/2) (lines 219-220, 228 and 238-242). -/
def BfacOf (na : ℝ) : ℝ :=
  (2 * Real.pi) ^ ((2 : ℝ) - na) *
    (Real.Gamma (na / 2) /
      ((2 : ℝ) ^ ((2 : ℝ) - na) * Real.pi * na * Real.Gamma (-na / 2)))

/-- The inertial-range parameter a (lines 229 and 243). -/
def aOf (na : ℝ) : ℝ :=
  Real.Gamma (na - 1) * Real.cos (na * Real.pi / 2) / (4 * Real.pi ^ 2)

/-- Tosellis inner-scale consistency parameter c_a (lines 231-232, 244-245). -/
def cAOf (na : ℝ) : ℝ :=
  (Real.Gamma (0.5 * (5 - na)) * aOf na * 2 * Real.pi / 3) ^ (1 / (na - 5))

/-- Inner scale frequency fm = c_a / l0 (lines 234 and 246). -/
def fmOf (na l0 : ℝ) : ℝ := cAOf na / l0

/-- The attributes of the WavePy object that PhaseScreen reads. -/
structure PSParams where
  N : ℕ
  dx : ℝ
  r0scrn : ℝ
  L0 : ℝ
  l0 : ℝ
  alpha : ℝ
  aniso : ℝ
  theta : ℝ

/-- The normalized alpha value na = alpha/6 (line 218). -/
def naOf (p : PSParams) : ℝ := p.alpha / 6

/-- The Kolmogorov normalized alpha nae = 22/6 (line 237). -/
def nae : ℝ := 22 / 6

/-- Frequency grid spacing del_f = 1/(N dx) (line 214). -/
def delF (p : PSParams) : ℝ := 1 / ((p.N : ℝ) * p.dx)

/-- The anisotropy angle in radians (line 211). -/
def thetar (p : PSParams) : ℝ := (Real.pi / 180) * p.theta

/-- fx grid (lines 250-251): fx[i][j] = (j - N/2) del_f. -/
def fxg (p : PSParams) (i j : Fin p.N) : ℝ := ((j : ℝ) - (p.N : ℝ) / 2) * delF p

/-- fy grid (line 251, meshgrid(fx, -1*fx)): fy[i][j] = -(i - N/2) del_f. -/
def fyg (p : PSParams) (i j : Fin p.N) : ℝ := -(((i : ℝ) - (p.N : ℝ) / 2) * delF p)

/-- Affine transform tx (line 254). -/
def txg (p : PSParams) (i j : Fin p.N) : ℝ :=
  fxg p i j * Real.cos (thetar p) + fyg p i j * Real.sin (thetar p)

/-- Affine transform ty (line 255). -/
def tyg (p : PSParams) (i j : Fin p.N) : ℝ :=
  -(fxg p i j * Real.sin (thetar p)) + fyg p i j * Real.cos (thetar p)

/-- Scalar frequency grid f (line 258), with b = aniso and c = 1. -/
def fg (p : PSParams) (i j : Fin p.N) : ℝ :=
  Real.sqrt (txg p i j ^ 2 / p.aniso ^ 2 + tyg p i j ^ 2 / (1 : ℝ) ^ 2)

/-- The sampled turbulence PSD before normalization, PSD_phi of lines
261-263. -/
def PSDphi (p : PSParams) (i j : Fin p.N) : ℝ :=
  coneOf (naOf p) * BfacOf (naOf p) * (p.aniso * 1) ^ (-(naOf p) / 2) *
    p.r0scrn ^ ((2 : ℝ) - naOf p) *
    Real.exp (-(fg p i j / fmOf (naOf p) p.l0) ^ 2) /
    ((fg p i j ^ 2 + (1 / p.L0) ^ 2) ^ (naOf p / 2))

/-- The reference Kolmogorov PSD on the same grid, PSD_phie of lines
269-271 (no anisotropy prefactor, exponent nae). -/
def PSDphie (p : PSParams) (i j : Fin p.N) : ℝ :=
  coneOf nae * BfacOf nae * p.r0scrn ^ ((2 : ℝ) - nae) *
    Real.exp (-(fg p i j / fmOf nae p.l0) ^ 2) /
    ((fg p i j ^ 2 + (1 / p.L0) ^ 2) ^ (nae / 2))

/-- tot_NOK (line 265): grid total of the non-Kolmogorov PSD. -/
def totNOK (p : PSParams) : ℝ := ∑ i : Fin p.N, ∑ j : Fin p.N, PSDphi p i j

/-- tot_OK (line 273): grid total of the reference Kolmogorov PSD. -/
def totOK (p : PSParams) : ℝ := ∑ i : Fin p.N, ∑ j : Fin p.N, PSDphie p i j

/-- The renormalized PSD (line 275). -/
def PSDnorm (p : PSParams) (i j : Fin p.N) : ℝ :=
  (totOK p / totNOK p) * PSDphi p i j

/-- The array actually used to filter the noise (lines 275-285): the
renormalized PSD with the DC cell, row and column floor(N/2), forced to
zero afterwards (line 278). -/
def PSDfilter (p : PSParams) (i j : Fin p.N) : ℝ :=
  if (i : ℕ) = p.N / 2 ∧ (j : ℕ) = p.N / 2 then 0 else PSDnorm p i j

/-- The unnormalized power sitting in the DC cell. -/
def dcSum (p : PSParams) : ℝ :=
  ∑ i : Fin p.N, ∑ j : Fin p.N,
    if (i : ℕ) = p.N / 2 ∧ (j : ℕ) = p.N / 2 then PSDphi p i j else 0

/-- Shared computation: the grid total of the filter array falls short of
the Kolmogorov reference total by exactly the renormalized DC power. -/
theorem psdFilter_sum (p : PSParams) (h : totNOK p ≠ 0) :
    (∑ i : Fin p.N, ∑ j : Fin p.N, PSDfilter p i j)
      = totOK p - (totOK p / totNOK p) * dcSum p := by
  have hsplit : ∀ i j : Fin p.N, PSDfilter p i j
      = PSDnorm p i j -
        (if (i : ℕ) = p.N / 2 ∧ (j : ℕ) = p.N / 2 then PSDnorm p i j else 0) := by
    intro i j
    unfold PSDfilter
    split
    · ring
    · ring
  calc (∑ i : Fin p.N, ∑ j : Fin p.N, PSDfilter p i j)
      = (∑ i : Fin p.N, ∑ j : Fin p.N, PSDnorm p i j)
        - ∑ i : Fin p.N, ∑ j : Fin p.N,
            (if (i : ℕ) = p.N / 2 ∧ (j : ℕ) = p.N / 2 then PSDnorm p i j else 0) := by
        simp only [hsplit, Finset.sum_sub_distrib]
    _ = (totOK p / totNOK p) * totNOK p
        - (totOK p / totNOK p) * dcSum p := by
        congr 1
        · unfold PSDnorm totNOK
          rw [Finset.mul_sum]
          exact Finset.sum_congr rfl (fun i _ => by rw [Finset.mul_sum])
        · unfold dcSum
          rw [Finset.mul_sum]
          refine Finset.sum_congr rfl (fun i _ => ?_)
          rw [Finset.mul_sum]
          refine Finset.sum_congr rfl (fun j _ => ?_)
          unfold PSDnorm
          split
          · rfl
          · rw [mul_zero]
    _ = totOK p - (totOK p / totNOK p) * dcSum p := by
        rw [div_mul_cancel₀ _ h]

/-- Positivity of each cell of the sampled non-Kolmogorov PSD, given
positivity of the spectral constant and the physical parameters. -/
theorem PSDphi_pos (p : PSParams)
    (hK : 0 < coneOf (naOf p) * BfacOf (naOf p))
    (hb : 0 < p.aniso) (hr : 0 < p.r0scrn) (hL : p.L0 ≠ 0) (i j : Fin p.N) :
    0 < PSDphi p i j := by
  unfold PSDphi
  have h1 : 0 < (p.aniso * 1) ^ (-(naOf p) / 2) :=
    Real.rpow_pos_of_pos (by simpa using hb) _
  have h2 : 0 < p.r0scrn ^ ((2 : ℝ) - naOf p) := Real.rpow_pos_of_pos hr _
  have h3 : 0 < Real.exp (-(fg p i j / fmOf (naOf p) p.l0) ^ 2) := Real.exp_pos _
  have hf0 : 0 < (1 / p.L0) ^ 2 := by
    have hne : (1 / p.L0) ≠ 0 := one_div_ne_zero hL
    exact (sq_nonneg _).lt_of_ne (Ne.symm (pow_ne_zero 2 hne))
  have h4 : 0 < fg p i j ^ 2 + (1 / p.L0) ^ 2 :=
    add_pos_of_nonneg_of_pos (sq_nonneg _) hf0
  have h5 : 0 < (fg p i j ^ 2 + (1 / p.L0) ^ 2) ^ (naOf p / 2) :=
    Real.rpow_pos_of_pos h4 _
  exact div_pos (by positivity) h5

/-- Positivity of each cell of the reference Kolmogorov PSD. -/
theorem PSDphie_pos (p : PSParams)
    (hK : 0 < coneOf nae * BfacOf nae)
    (hr : 0 < p.r0scrn) (hL : p.L0 ≠ 0) (i j : Fin p.N) :
    0 < PSDphie p i j := by
  unfold PSDphie
  have h2 : 0 < p.r0scrn ^ ((2 : ℝ) - nae) := Real.rpow_pos_of_pos hr _
  have h3 : 0 < Real.exp (-(fg p i j / fmOf nae p.l0) ^ 2) := Real.exp_pos _
  have hf0 : 0 < (1 / p.L0) ^ 2 := by
    have hne : (1 / p.L0) ≠ 0 := one_div_ne_zero hL
    exact (sq_nonneg _).lt_of_ne (Ne.symm (pow_ne_zero 2 hne))
  have h4 : 0 < fg p i j ^ 2 + (1 / p.L0) ^ 2 :=
    add_pos_of_nonneg_of_pos (sq_nonneg _) hf0
  have h5 : 0 < (fg p i j ^ 2 + (1 / p.L0) ^ 2) ^ (nae / 2) :=
    Real.rpow_pos_of_pos h4 _
  exact div_pos (by positivity) h5

/-- Gamma(-5/3) is positive, by the recurrence Gamma(x+1) = x Gamma(x). -/
theorem Gamma_neg_five_thirds_pos : 0 < Real.Gamma (-(5 / 3) : ℝ) := by
  have e1 : Real.Gamma ((-(5 / 3) : ℝ) + 1) = (-(5 / 3) : ℝ) * Real.Gamma (-(5 / 3) : ℝ) :=
    Real.Gamma_add_one (by norm_num)
  have e2 : Real.Gamma ((-(2 / 3) : ℝ) + 1) = (-(2 / 3) : ℝ) * Real.Gamma (-(2 / 3) : ℝ) :=
    Real.Gamma_add_one (by norm_num)
  have h1 : ((-(5 / 3) : ℝ) + 1) = (-(2 / 3) : ℝ) := by norm_num
  have h2 : ((-(2 / 3) : ℝ) + 1) = ((1 : ℝ) / 3) := by norm_num
  rw [h1] at e1
  rw [h2] at e2
  have hg : 0 < Real.Gamma ((1 : ℝ) / 3) := Real.Gamma_pos_of_pos (by norm_num)
  nlinarith [e1, e2, hg]

/-- Gamma(-11/6) is positive, by the recurrence Gamma(x+1) = x Gamma(x). -/
theorem Gamma_neg_eleven_sixths_pos : 0 < Real.Gamma (-(11 / 6) : ℝ) := by
  have e1 : Real.Gamma ((-(11 / 6) : ℝ) + 1)
      = (-(11 / 6) : ℝ) * Real.Gamma (-(11 / 6) : ℝ) :=
    Real.Gamma_add_one (by norm_num)
  have e2 : Real.Gamma ((-(5 / 6) : ℝ) + 1) = (-(5 / 6) : ℝ) * Real.Gamma (-(5 / 6) : ℝ) :=
    Real.Gamma_add_one (by norm_num)
  have h1 : ((-(11 / 6) : ℝ) + 1) = (-(5 / 6) : ℝ) := by norm_num
  have h2 : ((-(5 / 6) : ℝ) + 1) = ((1 : ℝ) / 6) := by norm_num
  rw [h1] at e1
  rw [h2] at e2
  have hg : 0 < Real.Gamma ((1 : ℝ) / 6) := Real.Gamma_pos_of_pos (by norm_num)
  nlinarith [e1, e2, hg]

/-- The spectral constant is positive at na = 20/6 (alpha = 20, a
non-Kolmogorov exponent). -/
theorem coneBfac_pos_20 : 0 < coneOf ((20 : ℝ) / 6) * BfacOf ((20 : ℝ) / 6) := by
  have hA : 0 < coneOf ((20 : ℝ) / 6) := by
    unfold coneOf
    have h1 : ((20 : ℝ) / 6 - 2) = 4 / 3 := by norm_num
    rw [h1]
    have h2 : ((2 : ℝ) / (4 / 3)) = 3 / 2 := by norm_num
    rw [h2]
    have h3 : 0 < Real.Gamma ((3 : ℝ) / 2) := Real.Gamma_pos_of_pos (by norm_num)
    have h4 : 0 < (8 : ℝ) / (4 / 3) * Real.Gamma ((3 : ℝ) / 2) := by positivity
    positivity
  have hB : 0 < BfacOf ((20 : ℝ) / 6) := by
    unfold BfacOf
    have hpi := Real.pi_pos
    have hnum : 0 < Real.Gamma ((20 : ℝ) / 6 / 2) := by
      have h : ((20 : ℝ) / 6 / 2) = 5 / 3 := by norm_num
      rw [h]
      exact Real.Gamma_pos_of_pos (by norm_num)
    have hneg : 0 < Real.Gamma (-((20 : ℝ) / 6) / 2) := by
      have h : (-((20 : ℝ) / 6) / 2) = -(5 / 3) := by norm_num
      rw [h]
      exact Gamma_neg_five_thirds_pos
    have h1 : 0 < (2 * Real.pi) ^ ((2 : ℝ) - 20 / 6) :=
      Real.rpow_pos_of_pos (by linarith) _
    have h2 : 0 < (2 : ℝ) ^ ((2 : ℝ) - 20 / 6) :=
      Real.rpow_pos_of_pos (by norm_num) _
    have hden : 0 < (2 : ℝ) ^ ((2 : ℝ) - 20 / 6) * Real.pi * ((20 : ℝ) / 6)
        * Real.Gamma (-((20 : ℝ) / 6) / 2) := by positivity
    exact mul_pos h1 (div_pos hnum hden)
  exact mul_pos hA hB

/-- The spectral constant is positive at the Kolmogorov exponent nae. -/
theorem coneBfac_pos_nae : 0 < coneOf nae * BfacOf nae := by
  have hA : 0 < coneOf nae := by
    unfold coneOf nae
    have h1 : ((22 : ℝ) / 6 - 2) = 5 / 3 := by norm_num
    rw [h1]
    have h2 : ((2 : ℝ) / (5 / 3)) = 6 / 5 := by norm_num
    rw [h2]
    have h3 : 0 < Real.Gamma ((6 : ℝ) / 5) := Real.Gamma_pos_of_pos (by norm_num)
    have h4 : 0 < (8 : ℝ) / (5 / 3) * Real.Gamma ((6 : ℝ) / 5) := by positivity
    positivity
  have hB : 0 < BfacOf nae := by
    unfold BfacOf nae
    have hpi := Real.pi_pos
    have hnum : 0 < Real.Gamma ((22 : ℝ) / 6 / 2) := by
      have h : ((22 : ℝ) / 6 / 2) = 11 / 6 := by norm_num
      rw [h]
      exact Real.Gamma_pos_of_pos (by norm_num)
    have hneg : 0 < Real.Gamma (-((22 : ℝ) / 6) / 2) := by
      have h : (-((22 : ℝ) / 6) / 2) = -(11 / 6) := by norm_num
      rw [h]
      exact Gamma_neg_eleven_sixths_pos
    have h1 : 0 < (2 * Real.pi) ^ ((2 : ℝ) - 22 / 6) :=
      Real.rpow_pos_of_pos (by linarith) _
    have h2 : 0 < (2 : ℝ) ^ ((2 : ℝ) - 22 / 6) :=
      Real.rpow_pos_of_pos (by norm_num) _
    have hden : 0 < (2 : ℝ) ^ ((2 : ℝ) - 22 / 6) * Real.pi * ((22 : ℝ) / 6)
        * Real.Gamma (-((22 : ℝ) / 6) / 2) := by positivity
    exact mul_pos h1 (div_pos hnum hden)
  exact mul_pos hA hB

/-- A concrete non-Kolmogorov configuration: N = 2, dx = 1/2, r0scrn = 1,
L0 = 1, l0 = 1, alpha = 20, aniso = 1, theta = 0. -/
def c7Params : PSParams :=
  { N := 2, dx := 1 / 2, r0scrn := 1, L0 := 1, l0 := 1, alpha := 20,
    aniso := 1, theta := 0 }

/-- The non-Kolmogorov grid total is positive at the concrete parameters. -/
theorem c7_totNOK_pos : 0 < totNOK c7Params := by
  have hK : 0 < coneOf (naOf c7Params) * BfacOf (naOf c7Params) := coneBfac_pos_20
  have hp : ∀ i j : Fin c7Params.N, 0 < PSDphi c7Params i j := fun i j =>
    PSDphi_pos c7Params hK (by norm_num [c7Params]) (by norm_num [c7Params])
      (by norm_num [c7Params]) i j
  show 0 < ∑ i : Fin 2, ∑ j : Fin 2, PSDphi c7Params i j
  exact Finset.sum_pos (fun i _ => Finset.sum_pos (fun j _ => hp i j)
    Finset.univ_nonempty) Finset.univ_nonempty

/-- The Kolmogorov reference grid total is positive at the concrete
parameters. -/
theorem c7_totOK_pos : 0 < totOK c7Params := by
  have hp : ∀ i j : Fin c7Params.N, 0 < PSDphie c7Params i j := fun i j =>
    PSDphie_pos c7Params coneBfac_pos_nae (by norm_num [c7Params])
      (by norm_num [c7Params]) i j
  show 0 < ∑ i : Fin 2, ∑ j : Fin 2, PSDphie c7Params i j
  exact Finset.sum_pos (fun i _ => Finset.sum_pos (fun j _ => hp i j)
    Finset.univ_nonempty) Finset.univ_nonempty

/-- The DC cell holds positive unnormalized power at the concrete
parameters. -/
theorem c7_dcSum_pos : 0 < dcSum c7Params := by
  have hK : 0 < coneOf (naOf c7Params) * BfacOf (naOf c7Params) := coneBfac_pos_20
  have hcell : ∀ i j : Fin c7Params.N, 0 < PSDphi c7Params i j := fun i j =>
    PSDphi_pos c7Params hK (by norm_num [c7Params]) (by norm_num [c7Params])
      (by norm_num [c7Params]) i j
  have hev : dcSum c7Params
      = PSDphi c7Params (⟨1, by norm_num⟩ : Fin 2) (⟨1, by norm_num⟩ : Fin 2) := by
    show (∑ i : Fin 2, ∑ j : Fin 2,
        if (i : ℕ) = 2 / 2 ∧ (j : ℕ) = 2 / 2 then PSDphi c7Params i j else 0) = _
    rw [Fin.sum_univ_two, Fin.sum_univ_two, Fin.sum_univ_two]
    norm_num
  rw [hev]
  exact hcell _ _

/-- C7 counterexample: at the concrete non-Kolmogorov configuration
c7Params (alpha = 20), the grid total of the PSD array actually used to
filter the noise is NOT equal to the reference Kolmogorov total on the
same grid: zeroing the DC cell happens after the renormalization and
removes a strictly positive amount of power. -/
theorem psdFilter_total_ne_kolmogorov :
    (∑ i : Fin c7Params.N, ∑ j : Fin c7Params.N, PSDfilter c7Params i j)
      ≠ totOK c7Params := by
  have hNOK := c7_totNOK_pos
  rw [psdFilter_sum c7Params hNOK.ne']
  have hpos : 0 < (totOK c7Params / totNOK c7Params) * dcSum c7Params :=
    mul_pos (div_pos c7_totOK_pos hNOK) c7_dcSum_pos
  intro h
  nlinarith [hpos, h]

/-- C7 amended: the DC cell of the filter array is zero, and for every
configuration with nonzero non-Kolmogorov grid total the filter arrays
total power equals the reference Kolmogorov total minus the renormalized
DC-cell power (the two agree exactly only when the DC contribution
vanishes). -/
theorem psdFilter_dc_and_total (p : PSParams) (h : totNOK p ≠ 0) :
    (∀ i j : Fin p.N, (i : ℕ) = p.N / 2 → (j : ℕ) = p.N / 2 → PSDfilter p i j = 0) ∧
    (∑ i : Fin p.N, ∑ j : Fin p.N, PSDfilter p i j)
      = totOK p - (totOK p / totNOK p) * dcSum p := by
  refine ⟨?_, psdFilter_sum p h⟩
  intro i j hi hj
  unfold PSDfilter
  rw [if_pos ⟨hi, hj⟩]

/-- C7 witness: the amended statement evaluated at the concrete
configuration c7Params. -/
theorem psdFilter_dc_and_total_witness :
    totNOK c7Params ≠ 0 ∧
    ((∀ i j : Fin c7Params.N,
        (i : ℕ) = c7Params.N / 2 → (j : ℕ) = c7Params.N / 2 →
          PSDfilter c7Params i j = 0) ∧
     (∑ i : Fin c7Params.N, ∑ j : Fin c7Params.N, PSDfilter c7Params i j)
       = totOK c7Params - (totOK c7Params / totNOK c7Params) * dcSum c7Params) :=
  ⟨c7_totNOK_pos.ne', psdFilter_dc_and_total c7Params c7_totNOK_pos.ne'⟩

/-! ## Subharmonic compensator (WavePy.py, SubHarmonicComp, lines 295-358)

The two np.random.randn(6, 6) draws of each order become the explicit
arguments wRe and wIm. np.linspace is embedded pointwise, and the source
evaluates the spectral constants with the same formulas as PhaseScreen, so
coneOf and BfacOf are reused at na = alpha/6. -/

/-- The attributes of the WavePy object that SubHarmonicComp reads. -/
structure SHParams where
  N : ℕ
  SideLen : ℝ
  r0scrn : ℝ
  L0 : ℝ
  alpha : ℝ
  aniso : ℝ

/-- np.linspace(a, b, n) at index i: a + (b - a) i/(n - 1). -/
def linspaceVal (a b : ℝ) (n i : ℕ) : ℝ := a + (b - a) * (i : ℝ) / ((n : ℝ) - 1)

/-- m_indices (lines 314-316): m_indices[i][j] = linspace(-0.5, 0.5, N)[j]. -/
def mIdx (p : SHParams) (i j : Fin p.N) : ℝ := linspaceVal (-0.5) 0.5 p.N j

/-- n_indices (line 316): n_indices[i][j] = -linspace(-0.5, 0.5, N)[i]. -/
def nIdx (p : SHParams) (i j : Fin p.N) : ℝ := -(linspaceVal (-0.5) 0.5 p.N i)

/-- The subharmonic sample points linspace(-2.5, 2.5, 6). -/
def mpVal (j : Fin 6) : ℝ := linspaceVal (-2.5) 2.5 6 j

/-- f_x at order Np (line 330): 3^(-Np) m_prime[a][b] dq with
m_prime[a][b] = mpVal b and dq = 1/SideLen. -/
def fxSub (p : SHParams) (Np : ℕ) (a b : Fin 6) : ℝ :=
  (3 : ℝ) ^ (-(Np : ℤ)) * mpVal b * (1 / p.SideLen)

/-- f_y at order Np (line 331): 3^(-Np) n_prime[a][b] dq with
n_prime[a][b] = -mpVal a. -/
def fySub (p : SHParams) (Np : ℕ) (a b : Fin 6) : ℝ :=
  (3 : ℝ) ^ (-(Np : ℤ)) * (-(mpVal a)) * (1 / p.SideLen)

/-- The subharmonic frequency magnitude (line 333), b = aniso, c = 1. -/
def fSub (p : SHParams) (Np : ℕ) (a b : Fin 6) : ℝ :=
  Real.sqrt (fxSub p Np a b ^ 2 / p.aniso ^ 2 + fySub p Np a b ^ 2 / (1 : ℝ) ^ 2)

/-- The PSD sampled on the subharmonic grid, PSD_fi of lines 335-336. -/
def shPSDfi (p : SHParams) (Np : ℕ) (a b : Fin 6) : ℝ :=
  coneOf (p.alpha / 6) * BfacOf (p.alpha / 6) * (p.aniso * 1) ^ (-(p.alpha / 6) / 2) *
    p.r0scrn ^ ((2 : ℝ) - p.alpha / 6) *
    (fSub p Np a b ^ 2 + (1 / p.L0) ^ 2) ^ (-(p.alpha / 6) / 2)

/-- The filtered subharmonic coefficient cv (lines 339-341):
(wRe + i wIm) sqrt(PSD_fi) dqp with dqp = dq/3^Np. -/
def cvSub (p : SHParams) (wRe wIm : ℕ → Fin 6 → Fin 6 → ℝ) (Np : ℕ)
    (a b : Fin 6) : ℂ :=
  (((wRe Np a b : ℝ) : ℂ) + ((wIm Np a b : ℝ) : ℂ) * Complex.I) *
    (((Real.sqrt (shPSDfi p Np a b) * ((1 / p.SideLen) / (3 : ℝ) ^ Np) : ℝ) : ℂ))

/-- The order-Np spatial contribution temp_phz (lines 343-351): the double
loop runs n over rows and m over columns but reads cv[m][n], while the
frequencies come from m_prime[n][m] = mpVal m and n_prime[n][m] = -mpVal n. -/
def shOrderTerm (p : SHParams) (wRe wIm : ℕ → Fin 6 → Fin 6 → ℝ) (Np : ℕ)
    (i j : Fin p.N) : ℂ :=
  ∑ n : Fin 6, ∑ m : Fin 6,
    cvSub p wRe wIm Np m n *
      Complex.exp (Complex.I * ((2 * Real.pi * (3 : ℝ) ^ (-(Np : ℤ)) *
        (mpVal m * mIdx p i j + (-(mpVal n)) * nIdx p i j) : ℝ) : ℂ))

/-- The accumulated low-frequency screen lof_phz before the mean
subtraction (lines 323-354): the sum of the order terms, Np = 1 .. nsub. -/
def lofPhz (p : SHParams) (wRe wIm : ℕ → Fin 6 → Fin 6 → ℝ) (nsub : ℕ)
    (i j : Fin p.N) : ℂ :=
  ∑ Np ∈ Finset.Icc 1 nsub, shOrderTerm p wRe wIm Np i j

/-- SubHarmonicComp (line 356): the real part of lof_phz minus its mean
over all N^2 grid points. -/
def subHarmonicComp (p : SHParams) (wRe wIm : ℕ → Fin 6 → Fin 6 → ℝ)
    (nsub : ℕ) (i j : Fin p.N) : ℝ :=
  (lofPhz p wRe wIm nsub i j).re -
    (∑ a : Fin p.N, ∑ b : Fin p.N, (lofPhz p wRe wIm nsub a b).re) /
      ((p.N : ℝ) * (p.N : ℝ))

/-- C6: for every order count nsub at least 1 and every draw of the random
coefficients, the subharmonic compensator output has exactly zero mean:
the sum of all N^2 entries is zero. -/
theorem subHarmonicComp_zero_mean (p : SHParams)
    (wRe wIm : ℕ → Fin 6 → Fin 6 → ℝ) (nsub : ℕ) (h : 1 ≤ nsub) :
    ∑ i : Fin p.N, ∑ j : Fin p.N, subHarmonicComp p wRe wIm nsub i j = 0 := by
  by_cases hN : (p.N : ℝ) = 0
  · haveI : IsEmpty (Fin p.N) := by
      rw [Nat.cast_eq_zero.mp hN]
      infer_instance
    simp [Finset.univ_eq_empty]
  · unfold subHarmonicComp
    rw [Finset.sum_congr rfl (fun i _ => Finset.sum_sub_distrib),
      Finset.sum_sub_distrib]
    set S := ∑ a : Fin p.N, ∑ b : Fin p.N, (lofPhz p wRe wIm nsub a b).re with hS
    rw [Finset.sum_congr rfl (fun i _ => Finset.sum_const _),
      Finset.sum_const]
    simp only [Finset.card_univ, Fintype.card_fin, nsmul_eq_mul]
    field_simp
    ring

/-- C6 witness: the zero-mean statement evaluated at a concrete
configuration, nsub = 1 and the zero draw. -/
theorem subHarmonicComp_zero_mean_witness :
    1 ≤ 1 ∧
    ∑ i : Fin (SHParams.mk 2 1 1 1 (22 : ℝ) 1).N,
      ∑ j : Fin (SHParams.mk 2 1 1 1 (22 : ℝ) 1).N,
        subHarmonicComp (SHParams.mk 2 1 1 1 (22 : ℝ) 1)
          (fun _ _ _ => 0) (fun _ _ _ => 0) 1 i j = 0 :=
  ⟨le_refl 1,
    subHarmonicComp_zero_mean (SHParams.mk 2 1 1 1 (22 : ℝ) 1)
      (fun _ _ _ => 0) (fun _ _ _ => 0) 1 (le_refl 1)⟩

/-! ## Derived turbulence quantities (WavePy.py, lines 107-120 and 465-483)

wavePyInit performs the derived-value block of __init__ and setCn2Rytov
the mutator SetCn2Rytov. The source of __init__ (Python-2 era) writes the
Rytov exponents as 7/6 and 11/6; they are embedded as real quotients (the
modern reading of the division), while SetCn2Rytov writes them as float
literals 7.0/6.0 and 11.0/6.0 outright. SetCn2Rytov stores the new squared
Rytov number in a previously nonexistent attribute rytov (line 468),
modelled by an Option field that construction leaves at none, and never
writes rytovVar. -/

/-- The turbulence-related state of a WavePy object. -/
structure WavePyState where
  wvl : ℝ
  PropDist : ℝ
  NumScr : ℕ
  L0 : ℝ
  Cn2 : ℝ
  r0 : ℝ
  r0scrn : ℝ
  log_ampl_var : ℝ
  phase_var : ℝ
  rho_0 : ℝ
  rytovNum : ℝ
  rytovVar : ℝ
  rytov : Option ℝ

/-- The derived-value block of __init__ (lines 107-120). -/
def wavePyInit (wvl PropDist L0 Cn2 : ℝ) (NumScr : ℕ) : WavePyState :=
  let k := 2 * Real.pi / wvl
  let rn := Real.sqrt (1.23 * Cn2 * k ^ ((7 : ℝ) / 6) * PropDist ^ ((11 : ℝ) / 6))
  { wvl := wvl
    PropDist := PropDist
    NumScr := NumScr
    L0 := L0
    Cn2 := Cn2
    r0 := (0.423 * k ^ 2 * Cn2 * PropDist) ^ (-(3 : ℝ) / 5)
    r0scrn := (0.423 * k ^ 2 * Cn2 * (PropDist / (NumScr : ℝ))) ^ (-(3 : ℝ) / 5)
    log_ampl_var := 0.3075 * k ^ 2 * PropDist ^ ((11 : ℝ) / 6) * Cn2
    phase_var := 0.78 * Cn2 * k ^ 2 * PropDist * L0 ^ (-(5 : ℝ) / 3)
    rho_0 := (1.46 * Cn2 * k ^ 2 * PropDist) ^ (-(5 : ℝ) / 3)
    rytovNum := rn
    rytovVar := rn ^ 2
    rytov := none }

/-- SetCn2Rytov (lines 465-483). -/
def setCn2Rytov (s : WavePyState) (UserRytov : ℝ) : WavePyState :=
  let k := 2 * Real.pi / s.wvl
  let ryt := UserRytov ^ 2
  let Cn2 := ryt / (1.23 * k ^ ((7 : ℝ) / 6) * s.PropDist ^ ((11 : ℝ) / 6))
  { s with
    rytovNum := UserRytov
    rytov := some ryt
    Cn2 := Cn2
    r0 := (0.423 * k ^ 2 * Cn2 * s.PropDist) ^ (-(3 : ℝ) / 5)
    r0scrn := (0.423 * k ^ 2 * Cn2 * (s.PropDist / (s.NumScr : ℝ))) ^ (-(3 : ℝ) / 5)
    log_ampl_var := 0.3075 * k ^ 2 * s.PropDist ^ ((11 : ℝ) / 6) * Cn2
    phase_var := 0.78 * Cn2 * k ^ 2 * s.PropDist * s.L0 ^ (-(5 : ℝ) / 3)
    rho_0 := (1.46 * Cn2 * k ^ 2 * s.PropDist) ^ (-(5 : ℝ) / 3) }

/-- C8: after SetCn2Rytov the stored Rytov variance is stale. With
wvl = 2 pi (so k = 1), PropDist = 1, Cn2 = 1 at construction, the
constructor sets rytovVar = 1.23; calling SetCn2Rytov with UserRytov = 2
leaves rytovVar at 1.23 even though the value re-derived from the new
canonical inputs is rytovNum^2 = 4 (the mutator stores 4 in the separate
attribute rytov instead). -/
theorem setCn2Rytov_stale_rytovVar :
    (setCn2Rytov (wavePyInit (2 * Real.pi) 1 1 1 10) 2).rytovVar = 1.23 ∧
    (setCn2Rytov (wavePyInit (2 * Real.pi) 1 1 1 10) 2).rytovNum ^ 2 = 4 ∧
    (setCn2Rytov (wavePyInit (2 * Real.pi) 1 1 1 10) 2).rytov = some 4 ∧
    (1.23 : ℝ) ≠ 4 := by
  have hk : 2 * Real.pi / (2 * Real.pi) = 1 := div_self (by positivity)
  refine ⟨?_, ?_, ?_, by norm_num⟩
  · show (Real.sqrt (1.23 * 1 * (2 * Real.pi / (2 * Real.pi)) ^ ((7 : ℝ) / 6)
        * (1 : ℝ) ^ ((11 : ℝ) / 6))) ^ 2 = 1.23
    rw [hk, Real.one_rpow, Real.one_rpow]
    rw [Real.sq_sqrt (by norm_num)]
    norm_num
  · show (2 : ℝ) ^ 2 = 4
    norm_num
  · show some ((2 : ℝ) ^ 2) = some 4
    norm_num

/-! ## Atmosphere aggregator (wavepy3/atmos/atmos.py, Atmos.__init__)

The settings dict becomes a structure whose optional fields model absent
keys. Dictionary lookups that Python would answer with KeyError become
either an error result (when the source does not catch them: the
screen_method_dict lookup, the settings lookup for r0 and n_subharm, the
empty-z indexing) or the silent fallback the source codes with
try/except KeyError around __psd_setup (psd = None). The psd and
phase_screen modules of the package are not among the sources; the psd
constructors are modelled from the spec below and the two random
screen-synthesis functions are abstracted as function arguments, while
the vacuum method is modelled from the spec sentence that method=vacuum
yields all-ones screens. -/

/-- A psd function of one scalar frequency. -/
def PsdFn : Type := ℝ → ℝ

/-- Modelled from the spec: the psd module (src/wavepy3/psd.py) is missing
from the repository files. Section 4.1 of the spec and the static helper
__vonKarman_psd in atmos.py (0.023 r0^(-5/3) exp(-(f/fm)^2)/(f^2+f0^2)^(11/6),
here with unit Fried parameter) fix the three variants: Kolmogorov has no
outer or inner scale, von Karman adds the outer-scale cutoff f0 = 1/L0, the
modified variant adds inner-scale damping. Only the dispatch by name
matters for the claims settled here. -/
def psd_kolmogorov : PsdFn := fun f => 0.023 / (f ^ 2) ^ ((11 : ℝ) / 6)

/-- Modelled from the spec: the von Karman psd constructor (see
psd_kolmogorov). -/
def psd_vonkarman (L0 : ℝ) : PsdFn := fun f =>
  0.023 / (f ^ 2 + (1 / L0) ^ 2) ^ ((11 : ℝ) / 6)

/-- Modelled from the spec: the modified von Karman psd constructor (see
psd_kolmogorov). -/
def psd_modified_vonkarman (L0 l0 : ℝ) : PsdFn := fun f =>
  0.023 * Real.exp (-(f * l0) ^ 2) / (f ^ 2 + (1 / L0) ^ 2) ^ ((11 : ℝ) / 6)

/-- A Python float that may hold the value float(inf), which the vacuum
branch of Atmos.__init__ assigns to settings[r0]. -/
inductive PyFloat where
  | fin : ℝ → PyFloat
  | inf : PyFloat

/-- Division of such a value by a positive real (the source divides r0 by
n_scr^(-3/5), a positive float). -/
def pyDivPos (v : PyFloat) (d : ℝ) : PyFloat :=
  match v with
  | .fin x => .fin (x / d)
  | .inf => .inf

/-- An N by N real screen. -/
def Screen : Type := ℕ → ℕ → ℝ

/-- Modelled from the spec: phase_screen.vacuum (the phase_screen module
is missing from the repository files); the spec says method=vacuum yields
all-ones screens. -/
def vacuumScreen (n : ℕ) : Screen := fun _ _ => 1

/-- The keyword settings of Atmos.__init__; an Option field models a key
that may be absent from the dict. -/
structure AtmosSettings where
  screen_method_name : String
  psd_name : Option String
  r0 : Option ℝ
  L0 : Option ℝ
  l0 : Option ℝ
  n_subharm : Option ℕ

/-- Atmos.__psd_setup as run inside the try/except KeyError of __init__:
a name missing from psd_dict or psd_input_dict (wavepy_og is in the first
but not the second) or a missing required parameter raises KeyError, which
__init__ catches, leaving psd = None. -/
def psdSetup (st : AtmosSettings) (name : String) : Option PsdFn :=
  if name == "kolmogorov" then some psd_kolmogorov
  else if name == "vonKarman" then
    match st.L0 with
    | some v => some (psd_vonkarman v)
    | none => none
  else if name == "modified_vonKarman" then
    match st.L0, st.l0 with
    | some v, some w => some (psd_modified_vonkarman v w)
    | _, _ => none
  else none

/-- The object Atmos.__init__ builds. -/
structure AtmosObj where
  n_gridpts : ℕ
  screen_locations : List ℝ
  dx_sampling : List ℝ
  n_scr : ℕ
  screen_method_name : String
  psd : Option PsdFn
  r0s : List PyFloat
  screen : List Screen

/-- Atmos.__init__. The two random screen-synthesis functions
phase_screen.ft_phase_screen and phase_screen.ft_sh_phase_screen are not
among the sources and are abstracted as the arguments ft and ftsh, applied
to the argument lists __screen_method_input yields for them. -/
def atmosInit (ft : ℕ → ℝ → PyFloat → Option PsdFn → Screen)
    (ftsh : ℕ → ℝ → ℕ → PyFloat → Option PsdFn → Screen)
    (n_gridpts : ℕ) (z : List ℝ) (dx_0 dx_n : ℝ)
    (st : AtmosSettings) : Except String AtmosObj :=
  match z.getLast? with
  | none => .error "IndexError: z is empty"
  | some zlast =>
    let prop_frac := z.map (fun t => t / zlast)
    let dx_sampling := prop_frac.map (fun t => (dx_n - dx_0) * t + dx_0)
    let n_scr := z.length
    if ¬ (st.screen_method_name == "ft_sh" || st.screen_method_name == "ft"
        || st.screen_method_name == "vacuum") then
      .error ("KeyError: " ++ st.screen_method_name)
    else
      let psd : Option PsdFn :=
        match st.psd_name with
        | none => none
        | some nm => psdSetup st nm
      let r0v : Option PyFloat :=
        if st.screen_method_name == "vacuum" then some .inf
        else st.r0.map PyFloat.fin
      match r0v with
      | none => .error "KeyError: r0"
      | some r0val =>
        let r0s := List.replicate n_scr (pyDivPos r0val ((n_scr : ℝ) ^ (-(3 : ℝ) / 5)))
        let screens : Except String (List Screen) :=
          if st.screen_method_name == "vacuum" then
            .ok ((dx_sampling.zip r0s).map (fun _ => vacuumScreen n_gridpts))
          else if st.screen_method_name == "ft" then
            .ok ((dx_sampling.zip r0s).map (fun pr => ft n_gridpts pr.1 pr.2 psd))
          else
            match st.n_subharm with
            | none => .error "KeyError: n_subharm"
            | some ns =>
                .ok ((dx_sampling.zip r0s).map (fun pr => ftsh n_gridpts pr.1 ns pr.2 psd))
        match screens with
        | .error e => .error e
        | .ok scr =>
            .ok { n_gridpts := n_gridpts
                  screen_locations := z
                  dx_sampling := dx_sampling
                  n_scr := n_scr
                  screen_method_name := st.screen_method_name
                  psd := psd
                  r0s := r0s
                  screen := scr }

/-- A settings dict whose psd_name names no recognized PSD. -/
def c3Settings : AtmosSettings :=
  { screen_method_name := "vacuum", psd_name := some "gaussian",
    r0 := none, L0 := none, l0 := none, n_subharm := none }

/-- C3: constructing Atmos with the unrecognized PSD name gaussian does
NOT fail: the KeyError from the psd_dict lookup is caught by the
try/except around __psd_setup, and construction returns a full object
whose psd field was silently defaulted to None, for any behaviour of the
absent random synthesis functions. -/
theorem atmos_unknown_psd_silently_none
    (ft : ℕ → ℝ → PyFloat → Option PsdFn → Screen)
    (ftsh : ℕ → ℝ → ℕ → PyFloat → Option PsdFn → Screen) :
    ∃ a : AtmosObj, atmosInit ft ftsh 4 [1000] 1 1 c3Settings = .ok a ∧
      a.psd = none ∧ a.screen = [vacuumScreen 4] :=
  ⟨_, rfl, rfl, rfl⟩

end

end WavePy3
